import Mathlib

/-
Verification of the hotfix-kvadra-touchpad kernel module (src/module.c)
against its natural-language specification.

The development shallowly embeds the module's data model and operations:

* `i2c_controller`, `i2c_controller_list` / live count  -> `List i2c_controller`
  (the list models exactly the live slots `[0, i2c_controller_count)` of the
  static array; the static array in C is zero-initialized, so a freshly
  appended record has `isr_count = 0` because `i2c_controller_detect` writes
  only the `irq` field).
* `i2c_controller_detect` walks the PCI catalog.  `pci_get_device(INTEL, ANY)`
  chains over the catalog's devices with the Intel vendor id, in catalog
  order; the switch keeps the four KVADRA device ids.  The embedding also
  records the array indices written (`writes`) so bounds can be stated.
* `request_irq` / `free_irq` effects are tracked in an explicit `IrqState`:
  `held` is the list of registry indices whose registration is currently
  held (the context pointer `&i2c_controller_list[i]` is identified with the
  index `i`), and `badFrees` counts calls of `free_irq` whose (line, context)
  pair is not currently registered (a double/spurious release).
* The outcome of each `request_irq` call is a parameter `env : Nat -> Int`
  giving the return code of the call made at loop index `i` (the source
  treats `rc < 0` as failure).
* `proc_show` renders into a `seq_file` buffer modeled as a `String`
  accumulator; rendering is a pure function of the registry.
* `mod_init` sequences detect, proc entry creation (outcome a `Bool`
  parameter) and `hook_interrupts`, mirroring the source's control flow.
* concurrency over the counters is modeled as arbitrary interleavings of the
  observer's single atomic step (one indivisible read-modify-write, as
  guaranteed by the kernel's `atomic_inc`): `run_handlers_u32` folds a
  schedule of observer invocations over the registry.  The `atomic_t` cell
  is 32 bits wide, so the stored counter value wraps: the faithful increment
  is `(n + 1) % 2^32` (`atomic_inc_u32`).  `atomic_inc` without the modulus
  is the abstract number of invocations delivered, which the structural
  claims about the handler (which entry changes, what is returned) are
  stated over; the counter-magnitude claim is stated over the wrapping
  model only.
-/

/-- Embeds `struct pci_dev` as far as the module reads it: vendor id,
device id and the associated interrupt line. -/
structure pci_dev where
  vendor : Nat
  device : Nat
  irq : Nat
deriving DecidableEq, Repr

/-- Embeds `i2c_controller`: the IRQ in use and the ISR invocation count. -/
structure i2c_controller where
  irq : Nat
  isr_count : Nat
deriving DecidableEq, Repr

/-- `PCI_VENDOR_ID_INTEL` from `<linux/pci_ids.h>`. -/
def PCI_VENDOR_ID_INTEL : Nat := 0x8086

/-- `I2C_CONTROLLER_MAX`: capacity of `i2c_controller_list`. -/
def I2C_CONTROLLER_MAX : Nat := 16

/-- Error codes returned by the module (`-ENOBUFS` from detect,
`-ENOENT` from proc entry creation). -/
inductive Errno where
  | ENOBUFS
  | ENOENT
deriving DecidableEq, Repr

/-- Numeric value `-errno` as returned by the source functions. -/
def errno_val : Errno → Int
  | .ENOBUFS => -105
  | .ENOENT => -2

/-- The KVADRA device-id whitelist of `i2c_controller_detect`'s switch:
`0x51e8, 0x51e9, 0x51c5, 0x51c6`. -/
def is_kvadra_device (d : pci_dev) : Bool :=
  d.device == 0x51e8 || d.device == 0x51e9 || d.device == 0x51c5 || d.device == 0x51c6

/-- A device the module's detector keeps: Intel vendor and whitelisted
device id (the vendor filter is applied by `pci_get_device`, the device-id
filter by the switch). -/
def kvadra_match (d : pci_dev) : Bool :=
  (d.vendor == PCI_VENDOR_ID_INTEL) && is_kvadra_device d

/-- The controller record appended for a matching device: the source writes
only `.irq = dev->irq`; the counter is 0 because the static array is
zero-initialized. -/
def mk_controller (d : pci_dev) : i2c_controller :=
  { irq := d.irq, isr_count := 0 }

/-- Result of `i2c_controller_detect`: the returned code with, on success,
the populated live registry, plus the trace of array indices written. -/
structure DetectResult where
  res : Except Errno (List i2c_controller)
  writes : List Nat
deriving Repr

/-- Embeds the `while (dev != NULL)` loop of `i2c_controller_detect` over
the Intel-vendor chain.  For a whitelisted device the record is appended at
index `acc.length` (the current `i2c_controller_count`), the count is
incremented, and if the count has reached `I2C_CONTROLLER_MAX` the function
returns `-ENOBUFS` at once. -/
def detect_loop : List pci_dev → List i2c_controller → DetectResult
  | [], acc => ⟨.ok acc, []⟩
  | d :: rest, acc =>
    if is_kvadra_device d then
      if (acc ++ [mk_controller d]).length == I2C_CONTROLLER_MAX then
        ⟨.error .ENOBUFS, [acc.length]⟩
      else
        ⟨(detect_loop rest (acc ++ [mk_controller d])).res,
          acc.length :: (detect_loop rest (acc ++ [mk_controller d])).writes⟩
    else detect_loop rest acc

/-- Embeds `i2c_controller_detect`: chains over the catalog's Intel-vendor
devices (`pci_get_device(PCI_VENDOR_ID_INTEL, PCI_ANY_ID, ...)`) in catalog
order and runs the detection loop from an empty registry. -/
def i2c_controller_detect (catalog : List pci_dev) : DetectResult :=
  detect_loop (catalog.filter (fun d => d.vendor == PCI_VENDOR_ID_INTEL)) []

/-- `irqreturn_t` values the module uses. -/
inductive irqreturn_t where
  | IRQ_NONE
  | IRQ_HANDLED
deriving DecidableEq, Repr

/-- Embeds `atomic_inc(&c->isr_count)`: one indivisible increment of the
record's counter (atomicity is the kernel `atomic_t` contract). -/
def atomic_inc (c : i2c_controller) : i2c_controller :=
  { c with isr_count := c.isr_count + 1 }

/-- Pointwise update of the registry entry the observer's context points
at; every other slot is untouched. -/
def update_at : List i2c_controller → Nat → List i2c_controller
  | [], _ => []
  | c :: rest, 0 => atomic_inc c :: rest
  | c :: rest, Nat.succ p => c :: update_at rest p

/-- Embeds `irq_handler`: the context `p` is the address of the `p`-th
registry entry (modeled as its index).  The handler increments that entry's
counter atomically and returns `IRQ_HANDLED`; the int argument (the line
number) is ignored by the source. -/
def irq_handler (a : Nat) (reg : List i2c_controller) (p : Nat) :
    List i2c_controller × irqreturn_t :=
  (update_at reg p, irqreturn_t.IRQ_HANDLED)

/-- Size of the 32-bit `atomic_t` cell: counter arithmetic in the source
wraps modulo `2^32 = 4294967296`. -/
def UINT32_MOD : Nat := 4294967296

/-- Embeds `atomic_inc(&c->isr_count)` at the level of the stored 32-bit
cell: the `atomic_t` counter wraps, so the stored value is incremented
modulo `2^32`.  (`atomic_inc` above is the abstract invocation count of
the same source line; this definition is the bit-faithful refinement used
for counter-magnitude statements.) -/
def atomic_inc_u32 (c : i2c_controller) : i2c_controller :=
  { c with isr_count := (c.isr_count + 1) % UINT32_MOD }

/-- Pointwise wrapping update of the registry entry the observer's context
points at; every other slot is untouched. -/
def update_at_u32 : List i2c_controller → Nat → List i2c_controller
  | [], _ => []
  | c :: rest, 0 => atomic_inc_u32 c :: rest
  | c :: rest, Nat.succ p => c :: update_at_u32 rest p

/-- `irq_handler` with the 32-bit wrapping counter semantics. -/
def irq_handler_u32 (a : Nat) (reg : List i2c_controller) (p : Nat) :
    List i2c_controller × irqreturn_t :=
  (update_at_u32 reg p, irqreturn_t.IRQ_HANDLED)

/-- Folds a schedule of observer invocations (each element a context index)
over the registry, with the wrapping counter.  Because each invocation is a
single atomic step, an arbitrary concurrent interleaving of invocations is
exactly some such schedule. -/
def run_handlers_u32 : List Nat → List i2c_controller → List i2c_controller
  | [], reg => reg
  | p :: rest, reg => run_handlers_u32 rest (irq_handler_u32 0 reg p).1

/-- State of the platform's interrupt-registration service: `held` lists
registry indices whose (line, context) registration is currently held, and
`badFrees` counts `free_irq` calls whose registration was not held (a
double or spurious release). -/
structure IrqState where
  held : List Nat
  badFrees : Nat
deriving DecidableEq, Repr

/-- Effect of a successful `request_irq(c->irq, irq_handler, IRQF_SHARED,
MODULE_IRQ_NAME, c)` for registry index `i`. -/
def request_irq (s : IrqState) (i : Nat) : IrqState :=
  ⟨s.held ++ [i], s.badFrees⟩

/-- Effect of `free_irq(i2c_controller_list[i].irq, &i2c_controller_list[i])`:
drops the registration if held, otherwise records a spurious release. -/
def free_irq (s : IrqState) (i : Nat) : IrqState :=
  if i ∈ s.held then ⟨s.held.erase i, s.badFrees⟩ else ⟨s.held, s.badFrees + 1⟩

/-- Embeds `release_interrupts(count)`: the source's loop is
`for (i = 0; i < i2c_controller_count; i++) free_irq(list[i].irq, &list[i]);`
so the bound is the global live count (`reg.length` here); the `count`
parameter is declared but never read by the loop.  Returns the indices
passed to `free_irq`, in order. -/
def release_interrupts (count : Nat) (reg : List i2c_controller) : List Nat :=
  List.range reg.length

/-- Runs `release_interrupts` against the interrupt-registration service. -/
def release_interrupts_run (count : Nat) (reg : List i2c_controller)
    (s : IrqState) : IrqState :=
  (release_interrupts count reg).foldl free_irq s

/-- Outcome of `hook_interrupts`: the returned code, the final state of the
interrupt-registration service, and the indices freed by the rollback
(empty on success). -/
structure HookOutcome where
  rc : Int
  state : IrqState
  released : List Nat
deriving DecidableEq, Repr

/-- Embeds the `for (i = 0; i < i2c_controller_count; i++)` loop of
`hook_interrupts`: `suffix` is the part of the registry not yet processed,
`i` the loop index, `env i` the return code of the `request_irq` call made
at index `i`.  On `rc < 0` the source calls `release_interrupts(i)` and
returns `rc`. -/
def hook_loop (env : Nat → Int) (reg : List i2c_controller) :
    List i2c_controller → Nat → IrqState → HookOutcome
  | [], _, s => ⟨0, s, []⟩
  | _ :: rest, i, s =>
    if env i < 0 then
      ⟨env i, (release_interrupts i reg).foldl free_irq s, release_interrupts i reg⟩
    else hook_loop env reg rest (i + 1) (request_irq s i)

/-- Embeds `hook_interrupts`, started on the full live registry. -/
def hook_interrupts (env : Nat → Int) (reg : List i2c_controller)
    (s : IrqState) : HookOutcome :=
  hook_loop env reg reg 0 s

/-- One `seq_printf(m, "IRQ %d: %d\n", c->irq, atomic_read(&c->isr_count))`
appended to the seq_file buffer. -/
def seq_printf_line (m : String) (c : i2c_controller) : String :=
  m ++ ("IRQ " ++ toString c.irq ++ ": " ++ toString c.isr_count ++ "\n")

/-- Embeds `proc_show`: renders one line per live registry entry, in
registry order, into the (initially empty) seq_file buffer.  The embedding
is a pure function of the registry: rendering reads the counters and
mutates nothing. -/
def proc_show (reg : List i2c_controller) : String :=
  reg.foldl seq_printf_line ""

/-- Observable outcome of `mod_init`: return code, whether the proc entry
exists afterwards, the final interrupt-registration state, and the detected
registry (empty when detection failed). -/
structure ModInitResult where
  rc : Int
  proc_present : Bool
  irqs : IrqState
  registry : List i2c_controller
deriving Repr

/-- Embeds `mod_init`: detect controllers (failure returns the code at
once, nothing acquired); create the proc entry (`proc_ok` is the outcome;
failure returns `-ENOENT` with nothing acquired); hook interrupts (failure
removes the proc entry and returns the code). -/
def mod_init (catalog : List pci_dev) (proc_ok : Bool) (env : Nat → Int) :
    ModInitResult :=
  match (i2c_controller_detect catalog).res with
  | .error e => { rc := errno_val e, proc_present := false, irqs := ⟨[], 0⟩, registry := [] }
  | .ok reg =>
    if proc_ok then
      if (hook_interrupts env reg ⟨[], 0⟩).rc < 0 then
        { rc := (hook_interrupts env reg ⟨[], 0⟩).rc, proc_present := false,
          irqs := (hook_interrupts env reg ⟨[], 0⟩).state, registry := reg }
      else
        { rc := 0, proc_present := true,
          irqs := (hook_interrupts env reg ⟨[], 0⟩).state, registry := reg }
    else
      { rc := errno_val .ENOENT, proc_present := false, irqs := ⟨[], 0⟩, registry := reg }

/-- Embeds `mod_exit`: `release_interrupts(i2c_controller_count)` then
`remove_proc_entry` (the returned `Bool` is whether the proc entry is still
present, i.e. `false`). -/
def mod_exit (reg : List i2c_controller) (s : IrqState) : IrqState × Bool :=
  (release_interrupts_run reg.length reg s, false)

/-- Concrete registry used to evaluate the rollback of `hook_interrupts`:
two live entries. -/
def c1_reg : List i2c_controller := [⟨5, 0⟩, ⟨7, 0⟩]

/-- Concrete `request_irq` outcomes: success at loop index 0, failure
(`-EINVAL`) at every later index. -/
def c1_env : Nat → Int := fun i => if i == 0 then 0 else -22

/-- Concrete catalog with exactly 16 devices matching the whitelist. -/
def c2_catalog : List pci_dev :=
  List.replicate 16 ⟨0x8086, 0x51e8, 3⟩

/-- Concrete one-entry registry for the double-release evaluation. -/
def c3_reg : List i2c_controller := [⟨5, 0⟩]

/-- Concrete mixed catalog: two matching devices (irq 5 and irq 8)
interleaved with a wrong-vendor device and a wrong-device-id device. -/
def c4_catalog : List pci_dev :=
  [⟨0x8086, 0x51e8, 5⟩, ⟨0x1234, 0x51e8, 6⟩, ⟨0x8086, 0x9999, 7⟩, ⟨0x8086, 0x51c5, 8⟩]

/-- Concrete catalog with a single matching device, interrupt line 7. -/
def c10_catalog : List pci_dev := [⟨0x8086, 0x51e8, 7⟩]

/-
Helper lemmas about the detection loop.
-/

lemma filter_intel_kvadra (catalog : List pci_dev) :
    (catalog.filter (fun d => d.vendor == PCI_VENDOR_ID_INTEL)).filter is_kvadra_device
      = catalog.filter kvadra_match := by
  induction catalog with
  | nil => rfl
  | cons d rest ih =>
    cases hv : (d.vendor == PCI_VENDOR_ID_INTEL) with
    | false => simp [List.filter_cons, hv, kvadra_match, ih]
    | true =>
      cases hk : is_kvadra_device d with
      | false => simp [List.filter_cons, hv, hk, kvadra_match, ih]
      | true => simp [List.filter_cons, hv, hk, kvadra_match, ih]

lemma detect_loop_ok (devs : List pci_dev) :
    ∀ acc : List i2c_controller,
      acc.length + (devs.filter is_kvadra_device).length < I2C_CONTROLLER_MAX →
      (detect_loop devs acc).res
        = .ok (acc ++ (devs.filter is_kvadra_device).map mk_controller) := by
  induction devs with
  | nil => intro acc h; simp [detect_loop]
  | cons d rest ih =>
    intro acc h
    cases hk : is_kvadra_device d with
    | false =>
      have hrec := ih acc (by simpa [List.filter_cons, hk] using h)
      simpa [detect_loop, hk, List.filter_cons] using hrec
    | true =>
      simp only [List.filter_cons, hk, if_true, List.length_cons] at h
      have hc : ¬(acc.length + 1 = I2C_CONTROLLER_MAX) := by
        simp only [I2C_CONTROLLER_MAX] at h ⊢
        omega
      have hrec := ih (acc ++ [mk_controller d]) (by
        simp only [List.length_append, List.length_singleton]
        simp only [I2C_CONTROLLER_MAX] at h ⊢
        omega)
      simp [detect_loop, hk, hc, hrec, List.filter_cons, List.append_assoc]

lemma detect_loop_err (devs : List pci_dev) :
    ∀ acc : List i2c_controller, acc.length < I2C_CONTROLLER_MAX →
      I2C_CONTROLLER_MAX ≤ acc.length + (devs.filter is_kvadra_device).length →
      (detect_loop devs acc).res = .error .ENOBUFS := by
  induction devs with
  | nil =>
    intro acc h1 h2
    simp only [List.filter_nil, List.length_nil, Nat.add_zero] at h2
    exact absurd h2 (by omega)
  | cons d rest ih =>
    intro acc h1 h2
    cases hk : is_kvadra_device d with
    | false =>
      have hrec := ih acc h1 (by simpa [List.filter_cons, hk] using h2)
      simpa [detect_loop, hk] using hrec
    | true =>
      by_cases hc : acc.length + 1 = I2C_CONTROLLER_MAX
      · simp [detect_loop, hk, hc]
      · have hlt : (acc ++ [mk_controller d]).length < I2C_CONTROLLER_MAX := by
          simp only [List.length_append, List.length_singleton]
          simp only [I2C_CONTROLLER_MAX] at hc h1 ⊢
          omega
        simp only [List.filter_cons, hk, if_true, List.length_cons] at h2
        have hrec := ih (acc ++ [mk_controller d]) hlt (by
          simp only [List.length_append, List.length_singleton]
          omega)
        simpa [detect_loop, hk, hc] using hrec

lemma detect_loop_writes (devs : List pci_dev) :
    ∀ acc : List i2c_controller, acc.length < I2C_CONTROLLER_MAX →
      ∀ w ∈ (detect_loop devs acc).writes, w < I2C_CONTROLLER_MAX := by
  induction devs with
  | nil => intro acc h w hw; simp [detect_loop] at hw
  | cons d rest ih =>
    intro acc h w hw
    cases hk : is_kvadra_device d with
    | false => exact ih acc h w (by simpa [detect_loop, hk] using hw)
    | true =>
      by_cases hc : acc.length + 1 = I2C_CONTROLLER_MAX
      · simp [detect_loop, hk, hc] at hw
        exact hw ▸ h
      · have hlt : (acc ++ [mk_controller d]).length < I2C_CONTROLLER_MAX := by
          simp only [List.length_append, List.length_singleton]
          simp only [I2C_CONTROLLER_MAX] at hc h ⊢
          omega
        simp [detect_loop, hk, hc] at hw
        rcases hw with rfl | hw
        · exact h
        · exact ih (acc ++ [mk_controller d]) hlt w hw

lemma detect_loop_ok_length (devs : List pci_dev) :
    ∀ acc reg : List i2c_controller, acc.length < I2C_CONTROLLER_MAX →
      (detect_loop devs acc).res = .ok reg → reg.length ≤ I2C_CONTROLLER_MAX := by
  induction devs with
  | nil =>
    intro acc reg h hok
    simp only [detect_loop, Except.ok.injEq] at hok
    exact hok ▸ Nat.le_of_lt h
  | cons d rest ih =>
    intro acc reg h hok
    cases hk : is_kvadra_device d with
    | false => exact ih acc reg h (by simpa [detect_loop, hk] using hok)
    | true =>
      by_cases hc : acc.length + 1 = I2C_CONTROLLER_MAX
      · simp [detect_loop, hk, hc] at hok
      · have hlt : (acc ++ [mk_controller d]).length < I2C_CONTROLLER_MAX := by
          simp only [List.length_append, List.length_singleton]
          simp only [I2C_CONTROLLER_MAX] at hc h ⊢
          omega
        exact ih (acc ++ [mk_controller d]) reg hlt
          (by simpa [detect_loop, hk, hc] using hok)

lemma detect_spec (catalog : List pci_dev) :
    (i2c_controller_detect catalog).res =
      if (catalog.filter kvadra_match).length < I2C_CONTROLLER_MAX then
        .ok ((catalog.filter kvadra_match).map mk_controller)
      else .error .ENOBUFS := by
  unfold i2c_controller_detect
  rw [← filter_intel_kvadra]
  by_cases h :
      ((catalog.filter (fun d => d.vendor == PCI_VENDOR_ID_INTEL)).filter
        is_kvadra_device).length < I2C_CONTROLLER_MAX
  · rw [if_pos h]
    have h0 := detect_loop_ok
      (catalog.filter (fun d => d.vendor == PCI_VENDOR_ID_INTEL))
      [] (by simp only [List.length_nil, Nat.zero_add]; exact h)
    simpa only [List.nil_append] using h0
  · rw [if_neg h]
    refine detect_loop_err _ [] (by simp [I2C_CONTROLLER_MAX]) ?_
    simp only [List.length_nil, Nat.zero_add]
    omega

/-
Helper lemmas about the interrupt-registration state.
-/

lemma free_irq_map_succ (s : List Nat) (b i : Nat) :
    free_irq ⟨s.map Nat.succ, b⟩ (Nat.succ i) =
      ⟨(free_irq ⟨s, b⟩ i).held.map Nat.succ, (free_irq ⟨s, b⟩ i).badFrees⟩ := by
  by_cases h : i ∈ s
  · have h' : Nat.succ i ∈ s.map Nat.succ :=
      (List.mem_map_of_injective Nat.succ_injective).mpr h
    simp only [free_irq, if_pos h, if_pos h']
    rw [List.map_erase Nat.succ_injective]
  · have h' : Nat.succ i ∉ s.map Nat.succ := fun hc =>
      h ((List.mem_map_of_injective Nat.succ_injective).mp hc)
    simp only [free_irq, if_neg h, if_neg h']

lemma foldl_free_map_succ (l : List Nat) :
    ∀ (s : List Nat) (b : Nat),
      (l.map Nat.succ).foldl free_irq ⟨s.map Nat.succ, b⟩ =
        ⟨((l.foldl free_irq ⟨s, b⟩).held).map Nat.succ,
          (l.foldl free_irq ⟨s, b⟩).badFrees⟩ := by
  induction l with
  | nil => intro s b; rfl
  | cons x xs ih =>
    intro s b
    simp only [List.map_cons, List.foldl_cons, free_irq_map_succ]
    exact ih (free_irq ⟨s, b⟩ x).held (free_irq ⟨s, b⟩ x).badFrees

lemma foldl_free_range :
    ∀ (n i b : Nat), i ≤ n →
      (List.range n).foldl free_irq ⟨List.range i, b⟩ = ⟨[], b + (n - i)⟩ := by
  intro n
  induction n with
  | zero =>
    intro i b h
    have hi : i = 0 := Nat.le_zero.mp h
    subst hi
    rfl
  | succ n ih =>
    intro i b h
    rw [List.range_succ_eq_map]
    cases i with
    | zero =>
      simp only [List.range_zero, List.foldl_cons]
      have h0 : free_irq ⟨[], b⟩ 0 = ⟨[], b + 1⟩ := by simp [free_irq]
      rw [h0]
      have hm := foldl_free_map_succ (List.range n) [] (b + 1)
      simp only [List.map_nil] at hm
      have hih := ih 0 (b + 1) (Nat.zero_le n)
      simp only [List.range_zero] at hih
      rw [hih] at hm
      simp only [List.map_nil] at hm
      rw [hm]
      have harith : b + 1 + (n - 0) = b + (n + 1 - 0) := by omega
      rw [harith]
    | succ j =>
      rw [List.range_succ_eq_map]
      simp only [List.foldl_cons]
      have h0 : free_irq ⟨0 :: (List.range j).map Nat.succ, b⟩ 0
          = ⟨(List.range j).map Nat.succ, b⟩ := by
        simp only [free_irq, if_pos (List.mem_cons_self 0 ((List.range j).map Nat.succ))]
        rw [List.erase_cons_head]
      rw [h0]
      have hm := foldl_free_map_succ (List.range n) (List.range j) b
      have hih := ih j b (by omega)
      rw [hih] at hm
      simp only [List.map_nil] at hm
      rw [hm]
      have harith : b + (n - j) = b + (n + 1 - (j + 1)) := by omega
      rw [harith]

/-
Helper lemmas about the hook loop.
-/

lemma hook_loop_cases (env : Nat → Int) (reg : List i2c_controller) :
    ∀ (suffix : List i2c_controller) (i b : Nat),
      i + suffix.length = reg.length →
      hook_loop env reg suffix i ⟨List.range i, b⟩
          = ⟨0, ⟨List.range reg.length, b⟩, []⟩ ∨
      ((hook_loop env reg suffix i ⟨List.range i, b⟩).rc < 0 ∧
        (hook_loop env reg suffix i ⟨List.range i, b⟩).state.held = [] ∧
        (hook_loop env reg suffix i ⟨List.range i, b⟩).released = List.range reg.length) := by
  intro suffix
  induction suffix with
  | nil =>
    intro i b h
    left
    simp only [List.length_nil, Nat.add_zero] at h
    rw [← h]
    rfl
  | cons c rest ih =>
    intro i b h
    simp only [List.length_cons] at h
    by_cases he : env i < 0
    · right
      have hfold := foldl_free_range reg.length i b (by omega)
      simp only [hook_loop, if_pos he, release_interrupts, hfold]
      exact ⟨he, trivial, trivial⟩
    · have hreq : request_irq ⟨List.range i, b⟩ i = ⟨List.range (i + 1), b⟩ := by
        simp [request_irq, List.range_succ]
      have hrec := ih (i + 1) b (by omega)
      simpa only [hook_loop, if_neg he, hreq] using hrec

/-
Helper lemmas about the observer.
-/

lemma update_at_get? (reg : List i2c_controller) :
    ∀ p q : Nat,
      (update_at reg p).get? q =
        if q = p then (reg.get? p).map atomic_inc else reg.get? q := by
  induction reg with
  | nil => intro p q; simp [update_at]
  | cons c rest ih =>
    intro p q
    cases p with
    | zero =>
      cases q with
      | zero => simp [update_at]
      | succ q' => simp [update_at]
    | succ p' =>
      cases q with
      | zero => simp [update_at]
      | succ q' =>
        simp only [update_at, List.get?_cons_succ]
        rw [ih p' q']
        by_cases hq : q' = p'
        · subst hq
          simp
        · simp [hq]

lemma update_at_length (reg : List i2c_controller) :
    ∀ p, (update_at reg p).length = reg.length := by
  induction reg with
  | nil => intro p; rfl
  | cons c rest ih =>
    intro p
    cases p with
    | zero => simp [update_at]
    | succ p' => simp [update_at, ih]

lemma update_at_map_irq (reg : List i2c_controller) :
    ∀ p, (update_at reg p).map i2c_controller.irq = reg.map i2c_controller.irq := by
  induction reg with
  | nil => intro p; rfl
  | cons c rest ih =>
    intro p
    cases p with
    | zero => simp [update_at, atomic_inc]
    | succ p' => simp [update_at, ih]

lemma update_at_u32_get? (reg : List i2c_controller) :
    ∀ p q : Nat,
      (update_at_u32 reg p).get? q =
        if q = p then (reg.get? p).map atomic_inc_u32 else reg.get? q := by
  induction reg with
  | nil => intro p q; simp [update_at_u32]
  | cons c rest ih =>
    intro p q
    cases p with
    | zero =>
      cases q with
      | zero => simp [update_at_u32]
      | succ q' => simp [update_at_u32]
    | succ p' =>
      cases q with
      | zero => simp [update_at_u32]
      | succ q' =>
        simp only [update_at_u32, List.get?_cons_succ]
        rw [ih p' q']
        by_cases hq : q' = p'
        · subst hq
          simp
        · simp [hq]

lemma update_at_u32_wf (reg : List i2c_controller) :
    ∀ p : Nat, (∀ c ∈ reg, c.isr_count < UINT32_MOD) →
      ∀ c ∈ update_at_u32 reg p, c.isr_count < UINT32_MOD := by
  induction reg with
  | nil => intro p h c hc; simp [update_at_u32] at hc
  | cons a rest ih =>
    intro p h c hc
    cases p with
    | zero =>
      simp only [update_at_u32, List.mem_cons] at hc
      rcases hc with rfl | hc
      · simp only [atomic_inc_u32]
        exact Nat.mod_lt _ (by decide)
      · exact h c (List.mem_cons_of_mem a hc)
    | succ p' =>
      simp only [update_at_u32, List.mem_cons] at hc
      rcases hc with rfl | hc
      · exact h c (List.mem_cons_self c rest)
      · exact ih p' (fun c' hc' => h c' (List.mem_cons_of_mem a hc')) c hc

lemma run_handlers_u32_get? (sched : List Nat) :
    ∀ (reg : List i2c_controller) (p : Nat),
      (∀ c ∈ reg, c.isr_count < UINT32_MOD) →
      (run_handlers_u32 sched reg).get? p =
        (reg.get? p).map
          (fun c => ⟨c.irq, (c.isr_count + sched.count p) % UINT32_MOD⟩) := by
  induction sched with
  | nil =>
    intro reg p hwf
    simp only [run_handlers_u32, List.count_nil, Nat.add_zero]
    cases h : reg.get? p with
    | none => rfl
    | some c =>
      cases c with
      | mk i n =>
        have hm : n < UINT32_MOD := hwf ⟨i, n⟩ (List.get?_mem h)
        simp [Nat.mod_eq_of_lt hm]
  | cons x rest ih =>
    intro reg p hwf
    simp only [run_handlers_u32, irq_handler_u32]
    rw [ih (update_at_u32 reg x) p (update_at_u32_wf reg x hwf),
      update_at_u32_get? reg x p]
    by_cases hp : p = x
    · subst hp
      simp only [if_pos rfl, List.count_cons_self]
      cases h : reg.get? p with
      | none => rfl
      | some c =>
        cases c with
        | mk i n =>
          have harith : ((n + 1) % UINT32_MOD + rest.count p) % UINT32_MOD
              = (n + (rest.count p + 1)) % UINT32_MOD := by
            rw [Nat.mod_add_mod]
            congr 1
            omega
          simp [atomic_inc_u32, harith]
    · have hxp : (x == p) = false := beq_eq_false_iff_ne.mpr (Ne.symm hp)
      simp only [if_neg hp, List.count_cons, hxp, Bool.false_eq_true, if_false,
        Nat.add_zero]

/-
Helper lemma about the report rendering.
-/

lemma proc_show_snoc (reg : List i2c_controller) (c : i2c_controller) :
    proc_show (reg ++ [c]) = proc_show reg ++
      ("IRQ " ++ toString c.irq ++ ": " ++ toString c.isr_count ++ "\n") := by
  simp only [proc_show, List.foldl_append, List.foldl_cons, List.foldl_nil, seq_printf_line]

/-
Claim theorems.
-/

/-- Claim C1 (the claim fails on the code; this evaluates the source
behavior at the failing input).  With two live registry entries, the
`request_irq` at index 0 succeeding and the one at index 1 failing with
`-22`, `hook_interrupts` performs the rollback `release_interrupts(1)` and
returns the failure; but because `release_interrupts` ignores its `count`
argument and loops to the global live count, the rollback frees indices
`[0, 2)`, not the acquired set `[0, 1)`: it frees one registration that was
never acquired (`badFrees = 1`), releasing the configured target count of
resources instead of the actually-acquired count. -/
theorem hook_rollback_releases_beyond_acquired :
    (hook_interrupts c1_env c1_reg ⟨[], 0⟩).rc = -22 ∧
    (hook_interrupts c1_env c1_reg ⟨[], 0⟩).released = [0, 1] ∧
    (hook_interrupts c1_env c1_reg ⟨[], 0⟩).released ≠ [0] ∧
    (hook_interrupts c1_env c1_reg ⟨[], 0⟩).state.badFrees = 1 := by
  decide

/-- Claim C2, counterexample to the claim as stated: a catalog with exactly
16 matching devices is NOT a successful discovery — `i2c_controller_detect`
returns `-ENOBUFS` as soon as the 16th match fills the registry, even
though no append exceeded the capacity. -/
theorem detect_full_registry_fails :
    (i2c_controller_detect c2_catalog).res = .error .ENOBUFS ∧
    (i2c_controller_detect c2_catalog).res.toOption = none ∧
    (c2_catalog.filter kvadra_match).length = 16 :=
  ⟨rfl, rfl, rfl⟩

/-- Claim C2 as amended: for every catalog, discovery fails — always and
only with `ResourceExhausted` — iff the catalog contains at least 16
matching devices (the capacity check fires when the registry becomes
full); with at most 15 matches, including zero, it succeeds with exactly
the matching devices. -/
theorem detect_capacity_behavior (catalog : List pci_dev) :
    (i2c_controller_detect catalog).res =
      if (catalog.filter kvadra_match).length < I2C_CONTROLLER_MAX then
        .ok ((catalog.filter kvadra_match).map mk_controller)
      else .error .ENOBUFS :=
  detect_spec catalog

/-- Claim C3 (the claim fails on the code; this evaluates the source
behavior at the failing input).  Uninstalling an empty registry is a no-op
(third conjunct), but teardown is not idempotent: with one live, hooked
entry, the first `mod_exit` release leaves no registration held (first
conjunct), and a second `mod_exit` calls `free_irq` again on the
already-released line — one spurious free (second conjunct) — because the
hook set is never emptied and `release_interrupts` unconditionally frees
every live entry. -/
theorem uninstall_double_release :
    (mod_exit c3_reg ⟨[0], 0⟩).1 = ⟨[], 0⟩ ∧
    (mod_exit c3_reg (mod_exit c3_reg ⟨[0], 0⟩).1).1.badFrees = 1 ∧
    (mod_exit [] ⟨[], 0⟩).1 = ⟨[], 0⟩ := by
  decide

/-- Claim C4: a successful discovery returns exactly the catalog devices
with the Intel vendor and a whitelisted device id, in catalog order, with
no re-sorting and no deduplication, each record's identifier being that
device's interrupt line copied verbatim; non-matching devices contribute
nothing. -/
theorem detect_ok_filters_catalog (catalog : List pci_dev)
    (reg : List i2c_controller)
    (hok : (i2c_controller_detect catalog).res = .ok reg) :
    reg = (catalog.filter kvadra_match).map mk_controller := by
  have h := detect_spec catalog
  rw [hok] at h
  by_cases hlen : (catalog.filter kvadra_match).length < I2C_CONTROLLER_MAX
  · rw [if_pos hlen] at h
    simpa only [Except.ok.injEq] using h
  · rw [if_neg hlen] at h
    exact absurd h (by simp)

/-- Witness for C4 at a concrete mixed catalog: the hypothesis holds and
the returned registry is the filtered, order-preserving image. -/
theorem detect_ok_filters_catalog_witness :
    (i2c_controller_detect c4_catalog).res = .ok [⟨5, 0⟩, ⟨8, 0⟩] ∧
    ([⟨5, 0⟩, ⟨8, 0⟩] : List i2c_controller)
      = (c4_catalog.filter kvadra_match).map mk_controller :=
  ⟨rfl, detect_ok_filters_catalog c4_catalog [⟨5, 0⟩, ⟨8, 0⟩] rfl⟩

/-- Claim C5: any failure during initialization leaves the system fully
unloaded — whenever `mod_init` returns a nonzero code, no interrupt
registration is held (discovery failure and proc failure acquire none;
hook failure rolls all of them back) and the proc entry is absent (never
created, or removed on hook failure) before the failure is surfaced. -/
theorem mod_init_failure_releases_everything (catalog : List pci_dev)
    (proc_ok : Bool) (env : Nat → Int)
    (hfail : (mod_init catalog proc_ok env).rc ≠ 0) :
    (mod_init catalog proc_ok env).irqs.held = [] ∧
    (mod_init catalog proc_ok env).proc_present = false := by
  cases hdet : (i2c_controller_detect catalog).res with
  | error e =>
    simp only [mod_init, hdet]
    exact ⟨trivial, trivial⟩
  | ok reg =>
    cases proc_ok with
    | false =>
      simp only [mod_init, hdet, Bool.false_eq_true, if_false]
      exact ⟨trivial, trivial⟩
    | true =>
      simp only [mod_init, hdet, if_true] at hfail ⊢
      have hh : hook_interrupts env reg ⟨[], 0⟩
          = hook_loop env reg reg 0 ⟨List.range 0, 0⟩ := rfl
      rw [hh] at hfail ⊢
      rcases hook_loop_cases env reg reg 0 0 (by simp) with hok | ⟨hrc, hheld, hrel⟩
      · rw [hok] at hfail
        simp at hfail
      · rw [if_pos hrc] at hfail ⊢
        exact ⟨hheld, rfl⟩

/-- Witness for C5 at a concrete failing load (proc entry creation fails
on an empty catalog): the failure code is nonzero, nothing is held, no
proc entry remains. -/
theorem mod_init_failure_witness :
    (mod_init [] false (fun _ => 0)).rc ≠ 0 ∧
    ((mod_init [] false (fun _ => 0)).irqs.held = [] ∧
      (mod_init [] false (fun _ => 0)).proc_present = false) :=
  ⟨by decide, mod_init_failure_releases_everything [] false (fun _ => 0) (by decide)⟩

/-- Claim C6: every observer invocation returns the "handled" indication
unconditionally, performs exactly one increment of the context record's
counter, leaves that record's identifier and every other slot untouched,
and cannot fail (it is a total function). -/
theorem irq_handler_increments_and_handles (a : Nat) (reg : List i2c_controller)
    (p : Nat) :
    (irq_handler a reg p).2 = irqreturn_t.IRQ_HANDLED ∧
    (∀ q : Nat, ((irq_handler a reg p).1).get? q =
      if q = p then (reg.get? p).map atomic_inc else reg.get? q) ∧
    (∀ c : i2c_controller,
      (atomic_inc c).isr_count = c.isr_count + 1 ∧ (atomic_inc c).irq = c.irq) := by
  refine ⟨rfl, ?_, ?_⟩
  · intro q
    exact update_at_get? reg p q
  · intro c
    exact ⟨rfl, rfl⟩

/-- Claim C7: rendering produces exactly one line per registry entry, in
registry order (empty registry renders empty; appending an entry appends
exactly its line), each line formatted "IRQ <identifier>: <counter>", with
the spec's concrete example rendering verbatim; the renderer is a pure
function of the registry, so it mutates neither structure nor counters. -/
theorem proc_show_format (reg : List i2c_controller) (c : i2c_controller) :
    proc_show ([] : List i2c_controller) = "" ∧
    proc_show (reg ++ [c]) = proc_show reg ++
      ("IRQ " ++ toString c.irq ++ ": " ++ toString c.isr_count ++ "\n") ∧
    proc_show [⟨5, 3⟩, ⟨9, 0⟩] = "IRQ 5: 3\nIRQ 9: 0\n" :=
  ⟨rfl, proc_show_snoc reg c, rfl⟩

/-- Claim C8: the registry invariant — every array slot the detector writes
lies in `[0, 16)`, a successfully built registry has live-length at most
16, and after discovery the observer mutates only counters: it preserves
the live-length and every entry's identifier. -/
theorem registry_bounds_invariant (catalog : List pci_dev) :
    (∀ w ∈ (i2c_controller_detect catalog).writes, w < I2C_CONTROLLER_MAX) ∧
    (∀ reg : List i2c_controller,
      (i2c_controller_detect catalog).res = .ok reg →
        reg.length ≤ I2C_CONTROLLER_MAX) ∧
    (∀ (a : Nat) (reg : List i2c_controller) (p : Nat),
      ((irq_handler a reg p).1).length = reg.length ∧
      ((irq_handler a reg p).1).map i2c_controller.irq
        = reg.map i2c_controller.irq) := by
  unfold i2c_controller_detect
  refine ⟨?_, ?_, ?_⟩
  · intro w hw
    exact detect_loop_writes _ [] (by simp [I2C_CONTROLLER_MAX]) w hw
  · intro reg hok
    exact detect_loop_ok_length _ [] reg (by simp [I2C_CONTROLLER_MAX]) hok
  · intro a reg p
    exact ⟨update_at_length reg p, update_at_map_irq reg p⟩

/-- Witness for C8 at a concrete catalog: index 0 is among the written
slots and is below capacity, and the successfully built registry obeys the
length bound. -/
theorem registry_bounds_invariant_witness :
    (0 ∈ (i2c_controller_detect c4_catalog).writes ∧ 0 < I2C_CONTROLLER_MAX) ∧
    ((i2c_controller_detect c4_catalog).res = .ok [⟨5, 0⟩, ⟨8, 0⟩] ∧
      ([⟨5, 0⟩, ⟨8, 0⟩] : List i2c_controller).length ≤ I2C_CONTROLLER_MAX) :=
  ⟨⟨by decide, (registry_bounds_invariant c4_catalog).1 0 (by decide)⟩,
   ⟨rfl, (registry_bounds_invariant c4_catalog).2.1 [⟨5, 0⟩, ⟨8, 0⟩] rfl⟩⟩

/-- Claim C9, counterexample to the claim as stated: the counter is a
32-bit `atomic_t`, so its stored value wraps.  Issuing `N = 2^32`
increments (any interleaving of `List.replicate UINT32_MOD 0`) to the
single entry `⟨5, 0⟩` leaves the stored counter at 0, not at `N`: the
claim's "final counter value of exactly N" fails for this `N`. -/
theorem concurrent_increments_wrap :
    (run_handlers_u32 (List.replicate UINT32_MOD 0) [⟨5, 0⟩]).get? 0
      = some ⟨5, 0⟩ ∧
    UINT32_MOD ≠ 0 := by
  constructor
  · rw [run_handlers_u32_get? (List.replicate UINT32_MOD 0) [⟨5, 0⟩] 0
      (by decide), List.count_replicate_self]
    simp
  · decide

/-- Claim C9 as amended: concurrency is modeled as arbitrary interleavings
of the observer's single atomic increment of the 32-bit `atomic_t` cell
(whose wrap is explicit: `(n + 1) % 2^32`).  For any number of concurrent
callers — every schedule of invocations — no update is lost: the final
stored counter of entry `p` is exactly `(initial + k) % 2^32` where `k`
counts the invocations targeting `p`; for `N` concurrent increments of one
entry the stored value is exactly `(initial + N) % 2^32`, hence exactly
`N` more than the initial value whenever the count stays below the 32-bit
bound (stated here below `2^31`, where the signed `atomic_read` view is
also exact). -/
theorem concurrent_increments_count_u32 (sched : List Nat)
    (reg : List i2c_controller) (p N : Nat)
    (hwf : ∀ c ∈ reg, c.isr_count < UINT32_MOD) :
    ((run_handlers_u32 sched reg).get? p =
      (reg.get? p).map
        (fun c => ⟨c.irq, (c.isr_count + sched.count p) % UINT32_MOD⟩)) ∧
    ((run_handlers_u32 (List.replicate N p) reg).get? p =
      (reg.get? p).map
        (fun c => ⟨c.irq, (c.isr_count + N) % UINT32_MOD⟩)) ∧
    ((∀ c ∈ reg, c.isr_count + N < 2147483648) →
      (run_handlers_u32 (List.replicate N p) reg).get? p =
        (reg.get? p).map (fun c => ⟨c.irq, c.isr_count + N⟩)) := by
  refine ⟨run_handlers_u32_get? sched reg p hwf, ?_, ?_⟩
  · rw [run_handlers_u32_get? (List.replicate N p) reg p hwf,
      List.count_replicate_self]
  · intro hbound
    rw [run_handlers_u32_get? (List.replicate N p) reg p hwf,
      List.count_replicate_self]
    cases h : reg.get? p with
    | none => rfl
    | some c =>
      cases c with
      | mk i n =>
        have hb : n + N < 2147483648 := hbound ⟨i, n⟩ (List.get?_mem h)
        have hmod : (n + N) % UINT32_MOD = n + N :=
          Nat.mod_eq_of_lt (by simp only [UINT32_MOD]; omega)
        simp [hmod]

/-- Witness for the amended C9 at a concrete input: the well-formedness
hypothesis holds for the one-entry registry with counter 3, and two
increments of entry 0 yield the stored value `(3 + 2) % 2^32`. -/
theorem concurrent_increments_count_u32_witness :
    (∀ c ∈ ([⟨5, 3⟩] : List i2c_controller), c.isr_count < UINT32_MOD) ∧
    ((run_handlers_u32 [0, 0] [⟨5, 3⟩]).get? 0 =
      (([⟨5, 3⟩] : List i2c_controller).get? 0).map
        (fun c => ⟨c.irq, (c.isr_count + ([0, 0] : List Nat).count 0) % UINT32_MOD⟩)) :=
  ⟨by decide,
   (concurrent_increments_count_u32 [0, 0] [⟨5, 3⟩] 0 2 (by decide)).1⟩

/-- Claim C10: a successful discovery's registry has every counter equal
to zero — the detector writes only the `irq` field and the zero comes from
the zero-initialized static storage — so every read before the first
observer invocation returns 0. -/
theorem detect_counters_zero (catalog : List pci_dev)
    (reg : List i2c_controller)
    (hok : (i2c_controller_detect catalog).res = .ok reg) :
    ∀ c ∈ reg, c.isr_count = 0 := by
  have h := detect_spec catalog
  rw [hok] at h
  by_cases hlen : (catalog.filter kvadra_match).length < I2C_CONTROLLER_MAX
  · rw [if_pos hlen] at h
    simp only [Except.ok.injEq] at h
    subst h
    intro c hc
    simp only [List.mem_map] at hc
    rcases hc with ⟨d, hd, rfl⟩
    rfl
  · rw [if_neg hlen] at h
    exact absurd h (by simp)

/-- Witness for C10 at a concrete one-device catalog: discovery succeeds
with registry `[⟨7, 0⟩]` and that record's counter is zero. -/
theorem detect_counters_zero_witness :
    (i2c_controller_detect c10_catalog).res = .ok [⟨7, 0⟩] ∧
    (⟨7, 0⟩ : i2c_controller).isr_count = 0 :=
  ⟨rfl, detect_counters_zero c10_catalog [⟨7, 0⟩] rfl ⟨7, 0⟩ (by decide)⟩
